import Mathlib

/-!
Verification development for the HTFS VS Code extension client
(src/extension.js, second revision of the file — the one with the
serialized execution queue, the tag caches, the annotation scanner and
the completion provider).

The JavaScript source is shallowly embedded:

* Pure string helpers (getRelativeFilePath, parseOutputLines,
  escapeRegExp) become Lean functions on String / List Char.
* The stateful client (the two caches, the ordered list of commands
  dispatched to the external tool, and the scripted backend responses)
  becomes explicit state passing over ClientState.  Since every
  external call in the source is awaited, the client code is a
  sequential state transformer; each call to the command gateway is
  recorded as one entry of the log and consumes one scripted response.
* The command gateway itself (execPromise with its promise chain
  execQueue) is modelled operationally as a labelled transition system
  (GStep / GTrace) in which an invocation may start only once the
  previously submitted invocation has settled — exactly the enabling
  discipline the promise chain implements — and theorems about its
  traces are proved.
* The regex-based annotation scanner is embedded as an explicit
  matcher implementing the semantics of the constructed pattern
  (?:^|[ \n\t])tag(?:$|\r?[ \n\t]) with the global-exec loop of the
  source, for tags whose characters are regex-literal (the tags the
  extension actually produces: trimmed, newline-free lines).
-/

namespace HTFS

/-! ## Basic string helpers (translated from src/extension.js) -/

/-- Whitespace trim of both ends, modelling JavaScript String.trim on
the ASCII whitespace the tool output contains. -/
def trimChars (l : List Char) : List Char :=
  ((l.dropWhile Char.isWhitespace).reverse.dropWhile Char.isWhitespace).reverse

/-- Split on the separator regex /\r?\n/ (each LF, consuming one
immediately preceding CR), as in parseOutputLines. -/
def splitCRLF : List Char → List (List Char)
  | [] => [[]]
  | '\r' :: '\n' :: rest => [] :: splitCRLF rest
  | '\n' :: rest => [] :: splitCRLF rest
  | c :: rest =>
    match splitCRLF rest with
    | [] => [[c]]
    | l :: ls => (c :: l) :: ls

/-- parseOutputLines (src/extension.js:313-320): normalize CRLF and LF,
trim each line, remove empty lines. -/
def parseOutputLines (output : String) : List String :=
  if output = "" then []
  else ((splitCRLF output.data).map (fun l => String.mk (trimChars l))).filter
    (fun l => l ≠ "")

/-- Remove the first occurrence of pat (JavaScript
String.replace(stringPattern, empty) replaces only the first match). -/
def replaceFirst : List Char → List Char → List Char
  | [], pat => if List.isPrefixOf pat [] then ([] : List Char).drop pat.length else []
  | c :: rest, pat =>
    if List.isPrefixOf pat (c :: rest) then (c :: rest).drop pat.length
    else c :: replaceFirst rest pat

/-- getRelativeFilePath (src/extension.js:304-308): strip the first
occurrence of the workspace folder, turn backslashes into slashes,
prepend a dot. -/
def getRelativeFilePath (filePath workspaceFolder : String) : String :=
  String.mk ('.' ::
    (replaceFirst filePath.data workspaceFolder.data).map
      (fun c => if c = '\\' then '/' else c))

/-! ## File-tag cache map (JavaScript Map keyed by relative path) -/

def lookupKey (k : String) : List (String × List String) → Option (List String)
  | [] => none
  | (k2, v) :: rest => if k2 = k then some v else lookupKey k rest

/-- Map.delete: drop the entry with the given key. -/
def eraseKey (k : String) (m : List (String × List String)) :
    List (String × List String) :=
  m.filter (fun kv => kv.1 ≠ k)

/-- Map.set: overwrite in place if present, else append. -/
def setKey (k : String) (v : List String) (m : List (String × List String)) :
    List (String × List String) :=
  if (lookupKey k m).isSome then
    m.map (fun kv => if kv.1 = k then (k, v) else kv)
  else m ++ [(k, v)]

/-! ## Client state and the client-side view of the command gateway -/

deriving instance DecidableEq for Except

/-- The mutable module state of src/extension.js: cachedTags (the Tag
Cache), cachedFileTags (the File-Tag Cache), plus the observables of a
run: the list of commands dispatched through execPromise, in order, and
the script of backend responses still to be consumed (the external tool
is a stateful process, so responses are positional, not a function of
the command text). -/
structure ClientState where
  cachedTags : Option (List String)
  cachedFileTags : List (String × List String)
  log : List String
  script : List (Except String String)
deriving DecidableEq, Repr

/-- The client-side view of one awaited execPromise call: the command
is dispatched (appended to the log) and the next scripted backend
response is consumed.  Queue serialization of concurrent submissions is
modelled separately by GStep / GTrace below. -/
def exec (command : String) (s : ClientState) :
    Except String String × ClientState :=
  match s.script with
  | [] => (Except.error "no backend response",
      { s with log := s.log ++ [command] })
  | r :: rest => (r, { s with log := s.log ++ [command], script := rest })

/-- fetchTags (src/extension.js:401-406): return the cached tag list if
present, else list tags through the gateway, parse and store. -/
def fetchTags (workspaceFolder : String) (s : ClientState) :
    Except String (List String) × ClientState :=
  match s.cachedTags with
  | some tags => (Except.ok tags, s)
  | none =>
    match exec "tagfs lstags" s with
    | (Except.ok stdout, s1) =>
      (Except.ok (parseOutputLines stdout),
       { s1 with cachedTags := some (parseOutputLines stdout) })
    | (Except.error e, s1) => (Except.error e, s1)

/-- getFileTags (src/extension.js:502-510): return the cached entry if
present, else fetch the resource tags, parse and store under the
relative path. -/
def getFileTags (workspaceFolder relativeFilePath : String)
    (s : ClientState) : Except String (List String) × ClientState :=
  match lookupKey relativeFilePath s.cachedFileTags with
  | some tags => (Except.ok tags, s)
  | none =>
    match exec ("tagfs getresourcetags " ++ relativeFilePath) s with
    | (Except.ok stdout, s1) =>
      (Except.ok (parseOutputLines stdout),
       { s1 with
         cachedFileTags :=
           setKey relativeFilePath (parseOutputLines stdout) s1.cachedFileTags })
    | (Except.error e, s1) => (Except.error e, s1)

/-! ## Editor environment (the host-editor state the source reads) -/

/-- The slice of a VS Code text editor the embedded code consumes. -/
structure Editor where
  fileName : String
  docText : String
deriving DecidableEq, Repr

/-- Ambient host state read by the source through the vscode API:
the (single) workspace folder, whether the status bar item exists,
whether the tagfs.path setting is configured, and the active editor. -/
structure Env where
  workspaceFolder : Option String
  statusBarPresent : Bool
  configured : Bool
  activeEditor : Option Editor
deriving DecidableEq, Repr

/-- User interactions consumed by the UI helpers: the quick-pick
selection and the input-box text (none models dismissal). -/
structure UI where
  quickPickChoice : Option String
  inputBoxText : Option String
deriving DecidableEq, Repr

def createNewTagLabel : String := "$(plus) Create new tag..."

/-! ## Annotation scanner (updateTagDecorations, src/extension.js:858-922)

The source builds, per tag, the pattern
(?:^|[ \n\t]) ++ escapeRegExp(tag) ++ (?:$|\r?[ \n\t])
and runs a global-exec loop over the document text, turning each match
into a decoration on the range of the tag inside the match.  The
matcher below implements the semantics of that pattern (without the m
flag: ^ is start of input, $ is end of input; alternatives are tried
left to right; \r? backtracks) for tags satisfying regexLiteralTag:
for those, escapeRegExp is the identity (escapeRegExp_eq_self_of_literal
below), so the compiled regex matches the tag text literally between
the boundary groups, which is what matchAt computes.  Tags containing
regex metacharacters are passed to the engine unescaped by the broken
escapeRegExp and act as regex operators; the model does not cover them,
and no theorem here quantifies over them. -/

/-- The character class [ \n\t] used by the scanner pattern as the
boundary delimiter (note: it does not contain CR). -/
def isDelim (c : Char) : Bool := c == ' ' || c == '\n' || c == '\t'

/-- Match of the trailing group (?:$|\r?[ \n\t]) at position q,
returning the number of characters consumed. -/
def trailMatch (text : List Char) (q : Nat) : Option Nat :=
  if q = text.length then some 0
  else
    match text[q]? with
    | none => none
    | some c =>
      if c = '\r' then
        match text[q + 1]? with
        | some d => if isDelim d then some 2 else none
        | none => none
      else if isDelim c then some 1 else none

/-- Match of the whole pattern at position p via the branch in which
the leading group matches ^ (possible only at position 0). -/
def matchHat (tag text : List Char) (p : Nat) : Option Nat :=
  if p = 0 && List.isPrefixOf tag text then
    (trailMatch text tag.length).map (fun t => tag.length + t)
  else none

/-- Match of the whole pattern at position p via the branch in which
the leading group consumes one delimiter character. -/
def matchDelim (tag text : List Char) (p : Nat) : Option Nat :=
  match text[p]? with
  | none => none
  | some c =>
    if isDelim c && List.isPrefixOf tag (text.drop (p + 1)) then
      (trailMatch text (p + 1 + tag.length)).map
        (fun t => 1 + tag.length + t)
    else none

/-- Match of the whole pattern at position p (leading ^ branch first,
as the regex alternation orders them), returning the match length. -/
def matchAt (tag text : List Char) (p : Nat) : Option Nat :=
  match matchHat tag text p with
  | some len => some len
  | none => matchDelim tag text p

/-- Leftmost match at a position of at least p: the regex engine slides
the start position forward until the pattern matches. -/
def findMatchFrom (tag text : List Char) : Nat → Nat → Option (Nat × Nat)
  | 0, _ => none
  | fuel + 1, p =>
    match matchAt tag text p with
    | some len => some (p, len)
    | none => findMatchFrom tag text fuel (p + 1)

/-- JavaScript String.indexOf on character lists (-1 when absent). -/
def jsIndexOf (hay needle : List Char) : Int :=
  if List.isPrefixOf needle hay then 0
  else
    match hay with
    | [] => -1
    | _ :: t =>
      let r := jsIndexOf t needle
      if r < 0 then -1 else r + 1

/-- One global-exec loop for one tag, as in the source: each match at
(q, len) contributes the occurrence starting at
q + fullMatch.indexOf(tag) and extending tag.length characters, and the
next search resumes at q + len (the regex lastIndex), so the trailing
delimiter consumed by a match is not available as the leading delimiter
of the next one.  The fuel mirrors the loop bound; with a non-empty tag
(the only tags the source passes) it is never exhausted. -/
def scanTagAux (tag text : List Char) (p : Nat) : Nat → List (Nat × Nat)
  | 0 => []
  | fuel + 1 =>
    match findMatchFrom tag text (text.length + 1 - p) p with
    | none => []
    | some (q, len) =>
      let fullMatch := (text.drop q).take len
      let s := q + (jsIndexOf fullMatch tag).toNat
      (s, s + tag.length) :: scanTagAux tag text (q + len) fuel

def scanTag (tag text : List Char) : List (Nat × Nat) :=
  scanTagAux tag text 0 (text.length + 1)

/-- The occurrence set computed by updateTagDecorations: for each tag
of the tag set in order (skipping empty strings, as the source skips
falsy tags), all scanner matches, as (tag, startOffset, endOffset).
Faithful to the source for tag sets of regexLiteralTag tags (see the
section comment above); theorems about arbitrary documents carry that
hypothesis. -/
def computeOccurrences (docText : String) (tags : List String) :
    List (String × Nat × Nat) :=
  tags.flatMap (fun tag =>
    if tag = "" then []
    else (scanTag tag.data docText.data).map (fun se => (tag, se.1, se.2)))

/-- The character class of the replace pattern in escapeRegExp
(src/extension.js:851-853).  Note the pattern in the source is
/[.*+?^${}()|[\\]\\]/g: the class is closed by the bracket after the
escaped backslash, leaving a literal backslash-bracket pair that must
follow the class character for the pattern to match at all. -/
def escClass : List Char :=
  ['.', '*', '+', '?', '^', '$', '\x7b', '\x7d', '(', ')', '|', '[', '\\']

/-- escapeRegExp as written: it rewrites only a class character that is
immediately followed by a backslash and a closing bracket, so on the
tag names the extension produces it is the identity. -/
def escapeRegExpAux : List Char → List Char
  | [] => []
  | c :: '\\' :: ']' :: rest2 =>
    if escClass.contains c then
      '\\' :: c :: '\\' :: ']' :: escapeRegExpAux rest2
    else c :: escapeRegExpAux ('\\' :: ']' :: rest2)
  | c :: rest => c :: escapeRegExpAux rest
termination_by l => l.length
decreasing_by all_goals simp [List.length_cons] <;> omega

def escapeRegExp (s : String) : String := String.mk (escapeRegExpAux s.data)

/-- A tag all of whose characters are regex-literal: none of the
JavaScript regex metacharacters that escapeRegExp was meant to escape
(nor a closing bracket or backslash).  On these tags escapeRegExp is
the identity (proved below, escapeRegExp_eq_self_of_literal), so the
pattern the source compiles matches the tag text literally between the
two boundary groups — exactly what matchAt implements.  A tag
containing a metacharacter reaches the regex engine unescaped (the
broken escapeRegExp rewrites only a metacharacter immediately followed
by a backslash-bracket pair) and behaves as a regex operator there;
such tags are outside the scanner model. -/
def regexLiteralTag (tag : List Char) : Bool :=
  tag.all (fun c => !(escClass.contains c || c = ']'))

/-- The standalone-token occurrence predicate in the words of the
specification (section 4.4): the tag text occurs at s and is delimited
by start-of-text/end-of-text or whitespace on both sides.  Used to
compare the scanner against its contract. -/
def specStandalone (text tag : List Char) (s : Nat) : Bool :=
  List.isPrefixOf tag (text.drop s)
    && (s == 0 || (text[s - 1]?).all Char.isWhitespace)
    && (s + tag.length == text.length
        || (text[s + tag.length]?).all Char.isWhitespace)

/-- A tag whose first character is not a scanner delimiter — true of
every tag the extension passes to the scanner, since they are trimmed
output lines. -/
def headNotDelim (tag : List Char) : Bool :=
  match tag with
  | [] => true
  | c :: _ => !(isDelim c)

/-! ## Status bar, decorations refresh, and the mutation helpers -/

/-- updateTagCount (src/extension.js:515-537), reduced to its cache and
gateway effects: nothing happens without the status bar item or the
configured path or a workspace; otherwise the tag count comes from
fetchTags with errors swallowed. -/
def updateTagCount (env : Env) (s : ClientState) : ClientState :=
  if env.statusBarPresent = false then s
  else if env.configured = false then s
  else
    match env.workspaceFolder with
    | none => s
    | some wf => (fetchTags wf s).2

/-- updateTagDecorations (src/extension.js:858-922) as a state
transformer returning the computed occurrences: resolves the relative
path of the editor file, fetches the file tags (through the cache) and
scans the document text; any fetch error degrades to no decorations. -/
def updateTagDecorations (env : Env) (editor : Option Editor)
    (s : ClientState) : List (String × Nat × Nat) × ClientState :=
  match editor with
  | none => ([], s)
  | some ed =>
    match env.workspaceFolder with
    | none => ([], s)
    | some wf =>
      match getFileTags wf (getRelativeFilePath ed.fileName wf) s with
      | (Except.error _, s1) => ([], s1)
      | (Except.ok tags, s1) => (computeOccurrences ed.docText tags, s1)

/-- refreshAfterTagChange (src/extension.js:473-483): refresh the
status-bar count, then refresh decorations when the active editor shows
the file that was just mutated. -/
def refreshAfterTagChange (env : Env) (workspaceFolder relativeFilePath : String)
    (s : ClientState) : ClientState :=
  let s1 := updateTagCount env s
  match env.activeEditor with
  | none => s1
  | some ed =>
    if getRelativeFilePath ed.fileName workspaceFolder = relativeFilePath then
      (updateTagDecorations env (some ed) s1).2
    else s1

/-- tagFileWithTag (src/extension.js:449-459): register the resource,
then tag it; only when both calls succeed is the File-Tag Cache entry
deleted, after which the UI refresh runs.  A failure of either call
leaves both caches untouched. -/
def tagFileWithTag (env : Env) (workspaceFolder relativeFilePath tagName : String)
    (s : ClientState) : ClientState :=
  match exec ("tagfs addresource " ++ relativeFilePath) s with
  | (Except.error _, s1) => s1
  | (Except.ok _, s1) =>
    match exec ("tagfs tagresource " ++ relativeFilePath ++ " " ++ tagName) s1 with
    | (Except.error _, s2) => s2
    | (Except.ok _, s2) =>
      let s3 := { s2 with cachedFileTags := eraseKey relativeFilePath s2.cachedFileTags }
      refreshAfterTagChange env workspaceFolder relativeFilePath s3

/-- untagFileWithTag (src/extension.js:488-497). -/
def untagFileWithTag (env : Env) (workspaceFolder relativeFilePath tagName : String)
    (s : ClientState) : ClientState :=
  match exec ("tagfs untagresource " ++ relativeFilePath ++ " " ++ tagName) s with
  | (Except.error _, s1) => s1
  | (Except.ok _, s1) =>
    let s2 := { s1 with cachedFileTags := eraseKey relativeFilePath s1.cachedFileTags }
    refreshAfterTagChange env workspaceFolder relativeFilePath s2

/-- showQuickPickWithCreate (src/extension.js:415-440): when the user
picks the create-new entry and types a name that is not already listed,
the creation command runs (its outcome only shown, the chosen name
returned either way) — and the Tag Cache is not touched here. -/
def showQuickPickWithCreate (ui : UI) (tags : List String) (s : ClientState) :
    Option String × ClientState :=
  match ui.quickPickChoice with
  | none => (none, s)
  | some label =>
    if label = createNewTagLabel then
      match ui.inputBoxText with
      | none => (none, s)
      | some newTag =>
        if newTag = "" then (none, s)
        else if tags.contains newTag then (some newTag, s)
        else (some newTag, (exec ("tagfs addtags " ++ newTag) s).2)
    else (some label, s)

/-- handleAddTagToFile (src/extension.js:713-735): list tags, run the
quick pick, create the tag when it is not in the (possibly stale)
listed set — invalidating the Tag Cache only on that success — and
finally tag the file. -/
def handleAddTagToFile (env : Env) (ui : UI)
    (workspaceFolder relativeFilePath : String) (s : ClientState) : ClientState :=
  match fetchTags workspaceFolder s with
  | (Except.error _, s1) => s1
  | (Except.ok tags, s1) =>
    match showQuickPickWithCreate ui tags s1 with
    | (none, s2) => s2
    | (some tagName, s2) =>
      if tags.contains tagName then
        tagFileWithTag env workspaceFolder relativeFilePath tagName s2
      else
        match exec ("tagfs addtags " ++ tagName) s2 with
        | (Except.error _, s3) => s3
        | (Except.ok _, s3) =>
          tagFileWithTag env workspaceFolder relativeFilePath tagName
            { s3 with cachedTags := none }

/-- tagfsAddTag (src/extension.js:574-586): explicit tag creation; on
success the Tag Cache is invalidated, on failure it is left alone. -/
def tagfsAddTag (env : Env) (ui : UI) (s : ClientState) : ClientState :=
  match env.workspaceFolder with
  | none => s
  | some _ =>
    match ui.inputBoxText with
    | none => s
    | some tagName =>
      if tagName = "" then s
      else
        match exec ("tagfs addtags " ++ tagName) s with
        | (Except.ok _, s1) => { s1 with cachedTags := none }
        | (Except.error _, s1) => s1

/-- tagfsGetTagsForFile (src/extension.js:668-683), reduced to its
cache effect: populate the File-Tag Cache for the active file under the
key derived by getRelativeFilePath. -/
def tagfsGetTagsForFile (env : Env) (fileName : String) (s : ClientState) :
    ClientState :=
  match env.workspaceFolder with
  | none => s
  | some wf => (getFileTags wf (getRelativeFilePath fileName wf) s).2

/-- The onDidCloseTextDocument listener (src/extension.js:1128-1136):
evict the File-Tag Cache entry of the closed document, keyed by
getRelativeFilePath. -/
def onDidCloseTextDocument (env : Env) (fileName : String) (s : ClientState) :
    ClientState :=
  match env.workspaceFolder with
  | none => s
  | some wf =>
    { s with cachedFileTags :=
        eraseKey (getRelativeFilePath fileName wf) s.cachedFileTags }

/-- updateTagDatabaseOnDelete (src/extension.js:1142-1156): note the
backend call receives the raw deleted path while the eviction key goes
through getRelativeFilePath. -/
def updateTagDatabaseOnDelete (env : Env) (deletedPath : String)
    (s : ClientState) : ClientState :=
  match exec ("tagfs rmresource " ++ deletedPath ++ " false") s with
  | (Except.error _, s1) => s1
  | (Except.ok _, s1) =>
    match env.workspaceFolder with
    | none => s1
    | some wf =>
      { s1 with cachedFileTags :=
          eraseKey (getRelativeFilePath deletedPath wf) s1.cachedFileTags }

/-- updateTagDatabaseOnRename (src/extension.js:1161-1175): the move
call receives the raw absolute paths; on success the old identity is
evicted (keyed by getRelativeFilePath). -/
def updateTagDatabaseOnRename (env : Env) (oldPath newPath : String)
    (s : ClientState) : ClientState :=
  match exec ("tagfs mvresource " ++ oldPath ++ " " ++ newPath ++ " false") s with
  | (Except.error _, s1) => s1
  | (Except.ok _, s1) =>
    match env.workspaceFolder with
    | none => s1
    | some wf =>
      { s1 with cachedFileTags :=
          eraseKey (getRelativeFilePath oldPath wf) s1.cachedFileTags }

/-! ## Completion provider (registerCompletionProvider,
src/extension.js:1004-1056) -/

/-- The observable parts of a vscode.CompletionItem the source sets:
label, insert text, the replacement range (character offsets within the
line), and whether an apply-tag command is attached. -/
structure CompletionItem where
  label : String
  insertText : String
  rangeStart : Nat
  rangeEnd : Nat
  hasCommand : Bool
deriving DecidableEq, Repr

/-- The placeholder item built when no tags are available: label
"(no tags found)", insert text equal to the trigger, the trigger range,
and no command. -/
def placeholderItem (charPos : Nat) : CompletionItem :=
  { label := "(no tags found)", insertText := "##",
    rangeStart := charPos - 2, rangeEnd := charPos, hasCommand := false }

/-- provideCompletionItems: empty result unless the text before the
cursor ends with the ## trigger and a workspace is open; then one item
per fetched tag (fetch errors degrade to no tags), every item replacing
exactly the two trigger characters; an empty tag list yields the single
placeholder. -/
def provideCompletionItems (line : List Char) (charPos : Nat) (env : Env)
    (s : ClientState) : List CompletionItem × ClientState :=
  let before := line.take charPos
  if !(List.isSuffixOf ['#', '#'] before) then ([], s)
  else
    match env.workspaceFolder with
    | none => ([], s)
    | some wf =>
      let fetched := fetchTags wf s
      let tags := match fetched.1 with
        | Except.ok ts => ts
        | Except.error _ => []
      let items := tags.map (fun tag =>
        { label := tag, insertText := tag, rangeStart := charPos - 2,
          rangeEnd := charPos, hasCommand := true : CompletionItem })
      if items.isEmpty then ([placeholderItem charPos], fetched.2)
      else (items, fetched.2)

/-- Modelled from the spec: the host editor applies an accepted
completion item by replacing the text of its replacement range with the
insert text (spec section 4.5: the replacement range spans exactly the
trigger sequence, so accepting a suggestion replaces the trigger).  The
host editor is outside src/. -/
def applyCompletionItem (line : List Char) (item : CompletionItem) : List Char :=
  line.take item.rangeStart ++ item.insertText.data ++ line.drop item.rangeEnd

/-! ## The command gateway queue (execPromise, src/extension.js:361-396)

execPromise chains every invocation onto the single promise execQueue:
the subprocess of invocation i is spawned inside a continuation
attached (at submission time, so in submission order) to the settled
state of invocation i-1, and the chain continues after a rejection
because the queue keeps result.catch of each invocation.  The model
below renders this as a labelled transition system over the set of
started and settled invocation indices: invocation i may start only
when i-1 has settled (or i is the first), and a started invocation may
settle with its own backend outcome res i — the catch on the queue copy
never alters the result delivered to the caller.  Theorems prove that
every complete trace of this system is the serialized FIFO trace. -/

/-- Observable events of the gateway: invocation i spawns its
subprocess, or invocation i settles with its outcome. -/
inductive GEvent where
  | start (i : Nat)
  | settle (i : Nat) (r : Except String String)
deriving DecidableEq, Repr

/-- Scheduler state: which invocation indices have started and which
have settled. -/
structure GConf where
  started : Finset Nat
  settled : Finset Nat
deriving DecidableEq

/-- One scheduler step for n submitted invocations with per-invocation
outcomes res.  start i is enabled once every promise before it in the
chain has settled — the continuation of invocation i is attached to the
caught copy of invocation i-1, which settles (successfully) exactly
when invocation i-1 settles, successfully or not. -/
inductive GStep (n : Nat) (res : Nat → Except String String) :
    GConf → GEvent → GConf → Prop where
  | start (c : GConf) (i : Nat) (hn : i < n) (hs : i ∉ c.started)
      (hprev : i = 0 ∨ (i - 1) ∈ c.settled) :
      GStep n res c (GEvent.start i) ⟨insert i c.started, c.settled⟩
  | settle (c : GConf) (i : Nat) (hs : i ∈ c.started) (hns : i ∉ c.settled) :
      GStep n res c (GEvent.settle i (res i)) ⟨c.started, insert i c.settled⟩

/-- Reflexive-transitive closure collecting the event trace. -/
inductive GTrace (n : Nat) (res : Nat → Except String String) :
    GConf → List GEvent → GConf → Prop where
  | nil (c : GConf) : GTrace n res c [] c
  | cons (c c1 c2 : GConf) (e : GEvent) (tr : List GEvent) :
      GStep n res c e c1 → GTrace n res c1 tr c2 → GTrace n res c (e :: tr) c2

/-- The initial scheduler state: nothing started, nothing settled. -/
def gInit : GConf := ⟨∅, ∅⟩

/-- A state from which no further step exists (the whole queue has
drained). -/
def gFinal (n : Nat) (res : Nat → Except String String) (c : GConf) : Prop :=
  ∀ e c2, ¬ GStep n res c e c2

/-- The serialized FIFO trace from invocation k on: start k, settle k,
start k+1, settle k+1, ... -/
def canonFrom (res : Nat → Except String String) (k n : Nat) : List GEvent :=
  if k < n then
    GEvent.start k :: GEvent.settle k (res k) :: canonFrom res (k + 1) n
  else []
termination_by n - k

/-- The idle configuration in which invocations below k are done and
nothing is running. -/
def idleConf (k : Nat) : GConf := ⟨Finset.range k, Finset.range k⟩

/-- The configuration in which invocations below k are done and
invocation k is running. -/
def runningConf (k : Nat) : GConf := ⟨Finset.range (k + 1), Finset.range k⟩

/-! ## Concrete scenario states for the closed evaluation theorems -/

/-- Host state with the active editor showing /ws/a.txt. -/
def envEditorOnA : Env :=
  { workspaceFolder := some "/ws", statusBarPresent := false,
    configured := false, activeEditor := some { fileName := "/ws/a.txt", docText := "x" } }

/-- Client state whose backend will answer the next three calls with
success. -/
def stThreeOks : ClientState :=
  { cachedTags := none, cachedFileTags := [], log := [],
    script := [Except.ok "", Except.ok "", Except.ok "t1\n"] }

/-- Host state with no active editor and no status bar. -/
def envPlain : Env :=
  { workspaceFolder := some "/ws", statusBarPresent := false,
    configured := false, activeEditor := none }

/-- User choosing the create-new quick-pick entry and typing b. -/
def uiCreateB : UI :=
  { quickPickChoice := some createNewTagLabel, inputBoxText := some "b" }

/-- Client state with a populated Tag Cache not containing b, whose
backend accepts one tag creation and rejects the duplicate that
follows. -/
def stStaleTagList : ClientState :=
  { cachedTags := some ["a"], cachedFileTags := [], log := [],
    script := [Except.ok "created b", Except.error "duplicate tag"] }

/-- Client state with two populated file-tag entries, backend accepting
a move. -/
def stRenameReady : ClientState :=
  { cachedTags := none,
    cachedFileTags := [("./a.txt", ["t1"]), ("./b.txt", ["t2"])],
    log := [], script := [Except.ok "moved"] }

/-- Client state with one populated file-tag entry, backend accepting a
removal. -/
def stDeleteReady : ClientState :=
  { cachedTags := none, cachedFileTags := [("./a.txt", ["t1"])], log := [],
    script := [Except.ok "removed"] }

/-! # Theorems -/

/-! ## Cache-map lemmas -/

theorem lookupKey_eraseKey_self (k : String) (m : List (String × List String)) :
    lookupKey k (eraseKey k m) = none := by
  induction m with
  | nil => rfl
  | cons kv rest ih =>
    by_cases h : kv.1 = k
    · simpa [eraseKey, h] using ih
    · simpa [eraseKey, lookupKey, h] using ih

theorem lookupKey_eraseKey_ne (k k2 : String) (m : List (String × List String))
    (h : k2 ≠ k) : lookupKey k2 (eraseKey k m) = lookupKey k2 m := by
  induction m with
  | nil => rfl
  | cons kv rest ih =>
    by_cases hk : kv.1 = k
    · simpa [eraseKey, lookupKey, hk, Ne.symm h] using ih
    · by_cases hk2 : kv.1 = k2
      · simp [eraseKey, List.filter_cons, hk, hk2, lookupKey, h]
      · simpa [eraseKey, List.filter_cons, hk, hk2, lookupKey] using ih

theorem lookupKey_setKey_self (k : String) (v : List String)
    (m : List (String × List String)) : lookupKey k (setKey k v m) = some v := by
  induction m with
  | nil => simp [setKey, lookupKey]
  | cons kv rest ih =>
    by_cases h : kv.1 = k
    · have hp : (lookupKey k (kv :: rest)).isSome := by simp [lookupKey, h]
      simp [setKey, hp, lookupKey, h]
    · have hp : lookupKey k (kv :: rest) = lookupKey k rest := by
        simp [lookupKey, h]
      by_cases hr : (lookupKey k rest).isSome
      · have ih2 : lookupKey k
            (List.map (fun kv => if kv.1 = k then (k, v) else kv) rest) = some v := by
          simpa [setKey, hr] using ih
        simp [setKey, hp, hr, lookupKey, h, ih2]
      · have ih2 : lookupKey k (rest ++ [(k, v)]) = some v := by
          simpa [setKey, hr] using ih
        simp [setKey, hp, hr, lookupKey, h, ih2]

/-! ## C6 — idempotent listing through the Tag Cache -/

/-- C6: two consecutive fetchTags reads with no intervening mutation
issue exactly one subprocess listing call.  On a miss the first read
dispatches tagfs lstags, parses the output into the sequence of
non-empty trimmed lines and stores it; the second read returns the
stored snapshot and leaves the state — including the dispatch log —
completely unchanged, so no subprocess call occurs. -/
theorem c6_fetchTags_idempotent_listing (wf out : String) (s : ClientState)
    (rest : List (Except String String))
    (hmiss : s.cachedTags = none) (hscript : s.script = Except.ok out :: rest) :
    fetchTags wf s =
      (Except.ok (parseOutputLines out),
        { s with cachedTags := some (parseOutputLines out),
                 log := s.log ++ ["tagfs lstags"], script := rest }) ∧
    fetchTags wf
        { s with cachedTags := some (parseOutputLines out),
                 log := s.log ++ ["tagfs lstags"], script := rest } =
      (Except.ok (parseOutputLines out),
        { s with cachedTags := some (parseOutputLines out),
                 log := s.log ++ ["tagfs lstags"], script := rest }) := by
  constructor
  · simp [fetchTags, exec, hmiss, hscript]
  · simp [fetchTags]

/-- Witness for C6 at a concrete state: the listing output with a blank
line is parsed to the two tags and the snapshot round-trips. -/
theorem c6_fetchTags_idempotent_listing_witness :
    fetchTags "/ws"
        { cachedTags := none, cachedFileTags := [], log := [],
          script := [Except.ok "alpha\n\nbeta\n"] } =
      (Except.ok ["alpha", "beta"],
        { cachedTags := some ["alpha", "beta"], cachedFileTags := [],
          log := ["tagfs lstags"], script := [] }) ∧
    fetchTags "/ws"
        { cachedTags := some ["alpha", "beta"], cachedFileTags := [],
          log := ["tagfs lstags"], script := [] } =
      (Except.ok ["alpha", "beta"],
        { cachedTags := some ["alpha", "beta"], cachedFileTags := [],
          log := ["tagfs lstags"], script := [] }) := by
  have h := c6_fetchTags_idempotent_listing "/ws" "alpha\n\nbeta\n"
    { cachedTags := none, cachedFileTags := [], log := [],
      script := [Except.ok "alpha\n\nbeta\n"] } [] rfl rfl
  have hp : parseOutputLines "alpha\n\nbeta\n" = ["alpha", "beta"] := by decide
  constructor
  · have h1 := h.1
    rw [hp] at h1
    simpa using h1
  · have h2 := h.2
    rw [hp] at h2
    simpa using h2

/-! ## C9 — a single key-normalization function addresses the
File-Tag Cache -/

/-- C9: population (getFileTags via tagfsGetTagsForFile), eviction on
document close (onDidCloseTextDocument) and invalidation after tag or
untag (tagFileWithTag and untagFileWithTag, as invoked by their callers
with the relative path computed by getRelativeFilePath) all address the
File-Tag Cache at the key getRelativeFilePath of the absolute path, so
an invalidation removes exactly the entry a prior population created
and touches no other entry. -/
theorem c9_cache_keys_agree (env : Env) (wf filePath out rel : String)
    (s : ClientState) (rest : List (Except String String))
    (hws : env.workspaceFolder = some wf)
    (hrel : rel = getRelativeFilePath filePath wf)
    (hkey : lookupKey rel s.cachedFileTags = none)
    (hscript : s.script = Except.ok out :: rest)
    (hsb : env.statusBarPresent = false)
    (hae : env.activeEditor = none) :
    lookupKey rel (tagfsGetTagsForFile env filePath s).cachedFileTags =
      some (parseOutputLines out) ∧
    (tagfsGetTagsForFile env filePath s).log =
      s.log ++ ["tagfs getresourcetags " ++ rel] ∧
    (onDidCloseTextDocument env filePath
        (tagfsGetTagsForFile env filePath s)).cachedFileTags =
      eraseKey rel (tagfsGetTagsForFile env filePath s).cachedFileTags ∧
    lookupKey rel (onDidCloseTextDocument env filePath
        (tagfsGetTagsForFile env filePath s)).cachedFileTags = none ∧
    (∀ k2, k2 ≠ rel →
      lookupKey k2 (onDidCloseTextDocument env filePath
          (tagfsGetTagsForFile env filePath s)).cachedFileTags =
        lookupKey k2 (tagfsGetTagsForFile env filePath s).cachedFileTags) ∧
    (∀ tagName o2 rest2 (s2 : ClientState),
      s2.script = Except.ok o2 :: rest2 →
      (untagFileWithTag env wf rel tagName s2).cachedFileTags =
        eraseKey rel s2.cachedFileTags) ∧
    (∀ tagName o1 o2 rest2 (s3 : ClientState),
      s3.script = Except.ok o1 :: Except.ok o2 :: rest2 →
      (tagFileWithTag env wf rel tagName s3).cachedFileTags =
        eraseKey rel s3.cachedFileTags) := by
  subst hrel
  have hpop : tagfsGetTagsForFile env filePath s =
      { s with
        cachedFileTags := setKey (getRelativeFilePath filePath wf)
          (parseOutputLines out) s.cachedFileTags,
        log := s.log ++ ["tagfs getresourcetags " ++ getRelativeFilePath filePath wf],
        script := rest } := by
    simp [tagfsGetTagsForFile, hws, getFileTags, hkey, exec, hscript]
  refine ⟨?_, ?_, ?_, ?_, ?_, ?_, ?_⟩
  · rw [hpop]; exact lookupKey_setKey_self _ _ _
  · rw [hpop]
  · simp [onDidCloseTextDocument, hws]
  · simp [onDidCloseTextDocument, hws, lookupKey_eraseKey_self]
  · intro k2 hk2
    simp [onDidCloseTextDocument, hws, lookupKey_eraseKey_ne _ _ _ hk2]
  · intro tagName o2 rest2 s2 hscript2
    simp [untagFileWithTag, exec, hscript2, refreshAfterTagChange,
      updateTagCount, hsb, hae]
  · intro tagName o1 o2 rest2 s3 hscript3
    simp [tagFileWithTag, exec, hscript3, refreshAfterTagChange,
      updateTagCount, hsb, hae]

/-- Witness for C9 at a concrete state: population at /ws/a.txt stores
under ./a.txt, close-eviction removes exactly that entry, and untag
erases the same key. -/
theorem c9_cache_keys_agree_witness :
    lookupKey "./a.txt"
      (tagfsGetTagsForFile envPlain "/ws/a.txt"
        { cachedTags := none, cachedFileTags := [("./z.txt", ["t9"])],
          log := [], script := [Except.ok "t1\n"] }).cachedFileTags =
      some ["t1"] ∧
    lookupKey "./a.txt"
      (onDidCloseTextDocument envPlain "/ws/a.txt"
        (tagfsGetTagsForFile envPlain "/ws/a.txt"
          { cachedTags := none, cachedFileTags := [("./z.txt", ["t9"])],
            log := [], script := [Except.ok "t1\n"] })).cachedFileTags = none ∧
    lookupKey "./z.txt"
      (onDidCloseTextDocument envPlain "/ws/a.txt"
        (tagfsGetTagsForFile envPlain "/ws/a.txt"
          { cachedTags := none, cachedFileTags := [("./z.txt", ["t9"])],
            log := [], script := [Except.ok "t1\n"] })).cachedFileTags =
      some ["t9"] ∧
    (tagFileWithTag envPlain "/ws" "./a.txt" "t1"
        { cachedTags := none,
          cachedFileTags := [("./a.txt", ["t1"]), ("./z.txt", ["t9"])],
          log := [], script := [Except.ok "", Except.ok ""] }).cachedFileTags =
      eraseKey "./a.txt" [("./a.txt", ["t1"]), ("./z.txt", ["t9"])] := by
  have h := c9_cache_keys_agree envPlain "/ws" "/ws/a.txt" "t1\n" "./a.txt"
    { cachedTags := none, cachedFileTags := [("./z.txt", ["t9"])],
      log := [], script := [Except.ok "t1\n"] } [] rfl (by decide) (by decide)
    rfl rfl rfl
  refine ⟨?_, h.2.2.2.1, ?_, ?_⟩
  · have := h.1
    rw [show parseOutputLines "t1\n" = ["t1"] from by decide] at this
    exact this
  · have hz := h.2.2.2.2.1 "./z.txt" (by decide)
    rw [hz]
    have := h.1
    decide
  · exact h.2.2.2.2.2.2 "t1" "" "" []
      { cachedTags := none,
        cachedFileTags := [("./a.txt", ["t1"]), ("./z.txt", ["t9"])],
        log := [], script := [Except.ok "", Except.ok ""] } rfl

/-! ## C3 — a tag-creation path that does not invalidate the Tag Cache -/

/-- C3 (code bug): on the quick-pick create path a tag creation
succeeds without the Tag Cache being invalidated.  With a populated
cache not containing b, the user creates b through
showQuickPickWithCreate (first tagfs addtags b, which the backend
accepts) and handleAddTagToFile then repeats the creation (the stale
listed set does not contain b); when the backend rejects that duplicate
the function returns early and cachedTags keeps its stale value — the
invalidation on successful creation the specification requires never
runs inside showQuickPickWithCreate. -/
theorem c3_quickpick_create_skips_invalidation :
    (handleAddTagToFile envPlain uiCreateB "/ws" "./f.txt" stStaleTagList).log =
      ["tagfs addtags b", "tagfs addtags b"] ∧
    (handleAddTagToFile envPlain uiCreateB "/ws" "./f.txt"
        stStaleTagList).cachedTags = some ["a"] ∧
    stStaleTagList.script.head? = some (Except.ok "created b") := by
  decide

/-! ## C8 — rename and delete pass raw absolute paths to the backend -/

/-- C8 (code bug): on a rename of /ws/a.txt to /ws/b.txt the client
issues exactly one move invocation, but its arguments are the raw
absolute paths, not the workspace-relative dot-prefixed file identities
the data model prescribes for all file-scoped invocations (and which
the eviction, correctly, uses as its key); file deletion likewise
passes the raw absolute path. -/
theorem c8_rename_delete_use_absolute_paths :
    (updateTagDatabaseOnRename envPlain "/ws/a.txt" "/ws/b.txt"
        stRenameReady).log = ["tagfs mvresource /ws/a.txt /ws/b.txt false"] ∧
    "tagfs mvresource /ws/a.txt /ws/b.txt false" ≠
      "tagfs mvresource " ++ getRelativeFilePath "/ws/a.txt" "/ws" ++ " " ++
        getRelativeFilePath "/ws/b.txt" "/ws" ++ " false" ∧
    (updateTagDatabaseOnRename envPlain "/ws/a.txt" "/ws/b.txt"
        stRenameReady).cachedFileTags = [("./b.txt", ["t2"])] ∧
    (updateTagDatabaseOnDelete envPlain "/ws/a.txt" stDeleteReady).log =
      ["tagfs rmresource /ws/a.txt false"] ∧
    "tagfs rmresource /ws/a.txt false" ≠
      "tagfs rmresource " ++ getRelativeFilePath "/ws/a.txt" "/ws" ++ " false" ∧
    (updateTagDatabaseOnDelete envPlain "/ws/a.txt"
        stDeleteReady).cachedFileTags = [] := by
  decide

/-! ## C2 — tagFile: two calls, invalidation, and the refresh -/

/-- C2 counterexample: with the tagged file open in the active editor
and all calls succeeding, tagFileWithTag dispatches three gateway
calls, not exactly two (the refresh immediately re-fetches the file
tags), and afterwards the File-Tag Cache entry is populated again, so a
subsequent get does not issue a fresh subprocess fetch. -/
theorem c2_counterexample :
    (tagFileWithTag envEditorOnA "/ws" "./a.txt" "t1" stThreeOks).log =
      ["tagfs addresource ./a.txt", "tagfs tagresource ./a.txt t1",
       "tagfs getresourcetags ./a.txt"] ∧
    lookupKey "./a.txt"
      (tagFileWithTag envEditorOnA "/ws" "./a.txt" "t1"
        stThreeOks).cachedFileTags = some ["t1"] := by
  decide

/-- C2 (amended): tagFileWithTag issues the register call and, only if
it succeeds, the associate call; a failure of either call leaves the
state otherwise untouched (in particular the File-Tag Cache entry);
when both succeed the entry for the file is deleted, and — whenever the
subsequent UI refresh has no gateway effect (no status bar and no
active editor on the file) — exactly the two mutation calls have been
issued and a subsequent get dispatches a fresh subprocess fetch. -/
theorem c2_tagFile_two_calls_invalidate (env : Env) (wf rel tag : String)
    (s : ClientState) (r1 : Except String String)
    (rest : List (Except String String))
    (hsb : env.statusBarPresent = false)
    (hed : env.activeEditor.all
      (fun ed => getRelativeFilePath ed.fileName wf != rel) = true)
    (hscript : s.script = r1 :: rest) :
    (∀ m, r1 = Except.error m →
      tagFileWithTag env wf rel tag s =
        { s with log := s.log ++ ["tagfs addresource " ++ rel],
                 script := rest }) ∧
    (∀ o1 r2 rest2, r1 = Except.ok o1 → rest = r2 :: rest2 →
      (∀ m, r2 = Except.error m →
        tagFileWithTag env wf rel tag s =
          { s with
            log := s.log ++ ["tagfs addresource " ++ rel,
              "tagfs tagresource " ++ rel ++ " " ++ tag],
            script := rest2 }) ∧
      (∀ o2, r2 = Except.ok o2 →
        tagFileWithTag env wf rel tag s =
          { s with
            cachedFileTags := eraseKey rel s.cachedFileTags,
            log := s.log ++ ["tagfs addresource " ++ rel,
              "tagfs tagresource " ++ rel ++ " " ++ tag],
            script := rest2 } ∧
        lookupKey rel (tagFileWithTag env wf rel tag s).cachedFileTags = none ∧
        (getFileTags wf rel (tagFileWithTag env wf rel tag s)).2.log =
          s.log ++ ["tagfs addresource " ++ rel,
            "tagfs tagresource " ++ rel ++ " " ++ tag,
            "tagfs getresourcetags " ++ rel])) := by
  obtain ⟨ct, cft, lg, scr⟩ := s
  simp only at hscript
  subst hscript
  constructor
  · rintro m rfl
    simp [tagFileWithTag, exec]
  · rintro o1 r2 rest2 rfl rfl
    constructor
    · rintro m rfl
      simp [tagFileWithTag, exec]
    · rintro o2 rfl
      have hmain : tagFileWithTag env wf rel tag
          ⟨ct, cft, lg, Except.ok o1 :: Except.ok o2 :: rest2⟩ =
          { cachedTags := ct, cachedFileTags := eraseKey rel cft,
            log := lg ++ ["tagfs addresource " ++ rel,
              "tagfs tagresource " ++ rel ++ " " ++ tag],
            script := rest2 } := by
        cases hae : env.activeEditor with
        | none =>
          simp [tagFileWithTag, exec, refreshAfterTagChange, updateTagCount,
            hsb, hae]
        | some ed =>
          have hne : ¬ (getRelativeFilePath ed.fileName wf = rel) := by
            simpa [hae, bne_iff_ne] using hed
          simp [tagFileWithTag, exec, refreshAfterTagChange, updateTagCount,
            hsb, hae, hne]
      refine ⟨hmain, ?_, ?_⟩
      · rw [hmain]
        exact lookupKey_eraseKey_self _ _
      · rw [hmain]
        cases rest2 with
        | nil => simp [getFileTags, lookupKey_eraseKey_self, exec]
        | cons r3 rest3 =>
          cases r3 <;> simp [getFileTags, lookupKey_eraseKey_self, exec]

/-- Witness for the amended C2 at a concrete success scenario: both
calls succeed, the entry for ./a.txt is removed, the log holds exactly
the two mutation commands, and a subsequent get dispatches the fetch
command. -/
theorem c2_tagFile_two_calls_invalidate_witness :
    tagFileWithTag envPlain "/ws" "./a.txt" "t1"
        { cachedTags := none, cachedFileTags := [("./a.txt", ["old"])],
          log := [], script := [Except.ok "", Except.ok ""] } =
      { cachedTags := none, cachedFileTags := [],
        log := ["tagfs addresource ./a.txt", "tagfs tagresource ./a.txt t1"],
        script := [] } ∧
    (getFileTags "/ws" "./a.txt"
        (tagFileWithTag envPlain "/ws" "./a.txt" "t1"
          { cachedTags := none, cachedFileTags := [("./a.txt", ["old"])],
            log := [], script := [Except.ok "", Except.ok ""] })).2.log =
      ["tagfs addresource ./a.txt", "tagfs tagresource ./a.txt t1",
       "tagfs getresourcetags ./a.txt"] := by
  have h := c2_tagFile_two_calls_invalidate envPlain "/ws" "./a.txt" "t1"
    { cachedTags := none, cachedFileTags := [("./a.txt", ["old"])],
      log := [], script := [Except.ok "", Except.ok ""] }
    (Except.ok "") [Except.ok ""] rfl rfl rfl
  have h2 := (h.2 "" (Except.ok "") [] rfl rfl).2 "" rfl
  refine ⟨?_, ?_⟩
  · have := h2.1
    simpa using this
  · have := h2.2.2
    simpa using this

/-! ## C7 and C10 — the completion trigger -/

/-- Helper: under the trigger with an open workspace, an empty or
unavailable tag set produces exactly the placeholder item. -/
theorem provideCompletionItems_of_no_tags (line : List Char) (charPos : Nat)
    (env : Env) (wf : String) (s : ClientState)
    (htrig : List.isSuffixOf ['#', '#'] (line.take charPos) = true)
    (hws : env.workspaceFolder = some wf)
    (hempty : (fetchTags wf s).1 = Except.ok [] ∨
      ∃ m, (fetchTags wf s).1 = Except.error m) :
    (provideCompletionItems line charPos env s).1 = [placeholderItem charPos] := by
  rcases hfe : fetchTags wf s with ⟨tres, s1⟩
  rcases hempty with h | ⟨m, h⟩ <;> rw [hfe] at h <;> simp only at h <;>
    subst h <;> simp [provideCompletionItems, htrig, hws, hfe]

/-- C7: with the text before the cursor ending in the ## trigger and an
open workspace, the provider never returns an empty list; when the tag
set is empty or unavailable it returns exactly the single
non-actionable placeholder; and every returned item replaces exactly
the two trigger characters immediately before the cursor. -/
theorem c7_completion_placeholder_and_range (line : List Char) (charPos : Nat)
    (env : Env) (wf : String) (s : ClientState)
    (htrig : List.isSuffixOf ['#', '#'] (line.take charPos) = true)
    (hws : env.workspaceFolder = some wf) :
    (provideCompletionItems line charPos env s).1 ≠ [] ∧
    (∀ it ∈ (provideCompletionItems line charPos env s).1,
      it.rangeStart + 2 = charPos ∧ it.rangeEnd = charPos) ∧
    (((fetchTags wf s).1 = Except.ok [] ∨
        ∃ m, (fetchTags wf s).1 = Except.error m) →
      (provideCompletionItems line charPos env s).1 = [placeholderItem charPos] ∧
      (placeholderItem charPos).hasCommand = false) := by
  have hsuf : ['#', '#'] <:+ line.take charPos :=
    List.isSuffixOf_iff_suffix.mp htrig
  have h2 : 2 ≤ charPos := by
    have hl := hsuf.length_le
    simp [List.length_take] at hl
    omega
  rcases hfe : fetchTags wf s with ⟨tres, s1⟩
  refine ⟨?_, ?_, ?_⟩
  · rcases tres with m | ts
    · simp [provideCompletionItems, htrig, hws, hfe]
    · rcases ts with _ | ⟨t, ts2⟩ <;>
        simp [provideCompletionItems, htrig, hws, hfe]
  · intro it hit
    rcases tres with m | ts
    · have hin : it = placeholderItem charPos := by
        simpa [provideCompletionItems, htrig, hws, hfe] using hit
      subst hin
      exact ⟨by simp [placeholderItem]; omega, by simp [placeholderItem]⟩
    · rcases ts with _ | ⟨t, ts2⟩
      · have hin : it = placeholderItem charPos := by
          simpa [provideCompletionItems, htrig, hws, hfe] using hit
        subst hin
        exact ⟨by simp [placeholderItem]; omega, by simp [placeholderItem]⟩
      · simp only [provideCompletionItems, htrig, hws, hfe] at hit
        simp at hit
        rcases hit with heq | ⟨tag, htag, heq⟩
        · subst heq
          exact ⟨by simp; omega, by simp⟩
        · rw [← heq]
          exact ⟨by simp; omega, by simp⟩
  · intro hempty
    rw [← hfe] at hempty
    exact ⟨provideCompletionItems_of_no_tags line charPos env wf s htrig hws
      hempty, rfl⟩

/-- Witness for C7: a cached empty tag set under the trigger "ab##"
with the cursor at offset 4 yields exactly the placeholder, whose range
spans offsets 2 to 4. -/
theorem c7_completion_placeholder_and_range_witness :
    (provideCompletionItems ['a', 'b', '#', '#'] 4 envPlain
      { cachedTags := some [], cachedFileTags := [], log := [],
        script := [] }).1 ≠ [] ∧
    (provideCompletionItems ['a', 'b', '#', '#'] 4 envPlain
      { cachedTags := some [], cachedFileTags := [], log := [],
        script := [] }).1 = [placeholderItem 4] ∧
    (placeholderItem 4).hasCommand = false := by
  have h := c7_completion_placeholder_and_range ['a', 'b', '#', '#'] 4 envPlain
    "/ws" { cachedTags := some [], cachedFileTags := [], log := [], script := [] }
    (by decide) rfl
  have he := h.2.2 (Or.inl (by decide))
  exact ⟨h.1, he.1, he.2⟩

/-- C10: when the tag set is empty or unavailable, the single
placeholder item inserts the trigger sequence over the trigger range,
so accepting it leaves the line unchanged — the identity round-trip at
the completion interface. -/
theorem c10_placeholder_roundtrip (line : List Char) (charPos : Nat)
    (env : Env) (wf : String) (s : ClientState)
    (hlen : charPos ≤ line.length)
    (htrig : List.isSuffixOf ['#', '#'] (line.take charPos) = true)
    (hws : env.workspaceFolder = some wf)
    (hempty : (fetchTags wf s).1 = Except.ok [] ∨
      ∃ m, (fetchTags wf s).1 = Except.error m) :
    (provideCompletionItems line charPos env s).1 = [placeholderItem charPos] ∧
    (placeholderItem charPos).insertText = "##" ∧
    applyCompletionItem line (placeholderItem charPos) = line := by
  have hsuf : ['#', '#'] <:+ line.take charPos :=
    List.isSuffixOf_iff_suffix.mp htrig
  obtain ⟨pre, hpre⟩ := hsuf
  have h2 : 2 ≤ charPos := by
    have hl := List.IsSuffix.length_le ⟨pre, hpre⟩
    simp [List.length_take] at hl
    omega
  have hlt : (line.take charPos).length = charPos := by
    simp [List.length_take]
    omega
  have hpl : pre.length = charPos - 2 := by
    have := congrArg List.length hpre
    simp [hlt] at this
    omega
  refine ⟨provideCompletionItems_of_no_tags line charPos env wf s htrig hws hempty,
    rfl, ?_⟩
  show line.take (charPos - 2) ++ ['#', '#'] ++ line.drop charPos = line
  have htk : line.take (charPos - 2) = pre := by
    have hmin : min (charPos - 2) charPos = charPos - 2 := by omega
    calc line.take (charPos - 2)
        = (line.take charPos).take (charPos - 2) := by
          rw [List.take_take, hmin]
      _ = (pre ++ ['#', '#']).take pre.length := by rw [hpre, hpl]
      _ = pre := List.take_left pre ['#', '#']
  rw [htk, hpre]
  exact List.take_append_drop charPos line

/-- Witness for C10: accepting the placeholder on the line "ab##xy"
with the cursor after the trigger leaves the line unchanged. -/
theorem c10_placeholder_roundtrip_witness :
    (provideCompletionItems ['a', 'b', '#', '#', 'x', 'y'] 4 envPlain
      { cachedTags := some [], cachedFileTags := [], log := [],
        script := [] }).1 = [placeholderItem 4] ∧
    applyCompletionItem ['a', 'b', '#', '#', 'x', 'y'] (placeholderItem 4) =
      ['a', 'b', '#', '#', 'x', 'y'] := by
  have h := c10_placeholder_roundtrip ['a', 'b', '#', '#', 'x', 'y'] 4 envPlain
    "/ws" { cachedTags := some [], cachedFileTags := [], log := [], script := [] }
    (by decide) (by decide) rfl (Or.inl (by decide))
  exact ⟨h.1, h.2.2⟩

/-! ## C4 — soundness of the annotation scanner -/

theorem isDelim_isWhitespace {c : Char} (h : isDelim c = true) :
    c.isWhitespace = true := by
  have h2 : c = ' ' ∨ c = '\n' ∨ c = '\t' := by
    simpa [isDelim, or_assoc] using h
  rcases h2 with h2 | h2 | h2 <;> subst h2 <;> decide

/-- A successful trailing-group match means the occurrence ends at the
end of the text or right before a whitespace character. -/
theorem trailMatch_some {text : List Char} {q t : Nat}
    (h : trailMatch text q = some t) :
    q = text.length ∨ ∃ c, text[q]? = some c ∧ c.isWhitespace = true := by
  by_cases hq : q = text.length
  · exact Or.inl hq
  · cases hg : text[q]? with
    | none =>
      have h2 : trailMatch text q = none := by simp [trailMatch, hq, hg]
      rw [h2] at h
      exact Option.noConfusion h
    | some c =>
      by_cases hc : c = '\r'
      · subst hc
        exact Or.inr ⟨'\r', rfl, by decide⟩
      · by_cases hd : isDelim c
        · exact Or.inr ⟨c, rfl, isDelim_isWhitespace hd⟩
        · have h2 : trailMatch text q = none := by
            simp [trailMatch, hq, hg, hc, hd]
          rw [h2] at h
          exact Option.noConfusion h

theorem matchHat_some {tag text : List Char} {p len : Nat}
    (h : matchHat tag text p = some len) :
    p = 0 ∧ List.isPrefixOf tag text = true ∧
      ∃ t, trailMatch text tag.length = some t ∧ len = tag.length + t := by
  by_cases hc : (decide (p = 0) && List.isPrefixOf tag text) = true
  · simp only [Bool.and_eq_true, decide_eq_true_eq] at hc
    cases hm : trailMatch text tag.length with
    | none =>
      have h2 : matchHat tag text p = none := by
        simp [matchHat, hc.1, hc.2, hm]
      rw [h2] at h
      exact Option.noConfusion h
    | some t =>
      have h2 : matchHat tag text p = some (tag.length + t) := by
        simp [matchHat, hc.1, hc.2, hm]
      rw [h2] at h
      have hlen : tag.length + t = len := by simpa using h
      exact ⟨hc.1, hc.2, t, rfl, hlen.symm⟩
  · have h2 : matchHat tag text p = none := by
      simp only [matchHat]
      rw [if_neg hc]
    rw [h2] at h
    exact Option.noConfusion h

theorem matchDelim_some {tag text : List Char} {p len : Nat}
    (h : matchDelim tag text p = some len) :
    ∃ c, text[p]? = some c ∧ isDelim c = true ∧
      List.isPrefixOf tag (text.drop (p + 1)) = true ∧
      ∃ t, trailMatch text (p + 1 + tag.length) = some t ∧
        len = 1 + tag.length + t := by
  cases hg : text[p]? with
  | none =>
    have h2 : matchDelim tag text p = none := by simp [matchDelim, hg]
    rw [h2] at h
    exact Option.noConfusion h
  | some c =>
    by_cases hc : (isDelim c && List.isPrefixOf tag (text.drop (p + 1))) = true
    · simp only [Bool.and_eq_true] at hc
      cases hm : trailMatch text (p + 1 + tag.length) with
      | none =>
        have h2 : matchDelim tag text p = none := by
          simp [matchDelim, hg, hc.1, hc.2, hm]
        rw [h2] at h
        exact Option.noConfusion h
      | some t =>
        have h2 : matchDelim tag text p = some (1 + tag.length + t) := by
          simp [matchDelim, hg, hc.1, hc.2, hm]
        rw [h2] at h
        have hlen : 1 + tag.length + t = len := by simpa using h
        exact ⟨c, rfl, hc.1, hc.2, t, rfl, hlen.symm⟩
    · have h2 : matchDelim tag text p = none := by
        simp only [matchDelim, hg]
        rw [if_neg hc]
      rw [h2] at h
      exact Option.noConfusion h

theorem matchAt_some {tag text : List Char} {p len : Nat}
    (h : matchAt tag text p = some len) :
    matchHat tag text p = some len ∨ matchDelim tag text p = some len := by
  cases hh : matchHat tag text p with
  | some l =>
    have h2 : matchAt tag text p = some l := by simp [matchAt, hh]
    rw [h2] at h
    have hl : l = len := by simpa using h
    subst hl
    exact Or.inl rfl
  | none =>
    have h2 : matchAt tag text p = matchDelim tag text p := by
      simp [matchAt, hh]
    rw [h2] at h
    exact Or.inr h

theorem jsIndexOf_of_prefix {hay needle : List Char}
    (h : List.isPrefixOf needle hay = true) : jsIndexOf hay needle = 0 := by
  cases hay <;> simp [jsIndexOf, h]

theorem jsIndexOf_cons_one {c : Char} {t needle : List Char}
    (h1 : ¬ List.isPrefixOf needle (c :: t) = true)
    (h2 : List.isPrefixOf needle t = true) : jsIndexOf (c :: t) needle = 1 := by
  have h0 : jsIndexOf t needle = 0 := jsIndexOf_of_prefix h2
  simp [jsIndexOf, h1, h0]

theorem isPrefixOf_take {tag l : List Char} {n : Nat}
    (h : List.isPrefixOf tag l = true) (hn : tag.length ≤ n) :
    List.isPrefixOf tag (l.take n) = true := by
  rw [List.isPrefixOf_iff_prefix] at h ⊢
  exact List.prefix_take_iff.mpr ⟨h, hn⟩

theorem not_prefix_of_delim_head {tag rest : List Char} {c : Char}
    (htag : tag ≠ []) (hh : headNotDelim tag = true) (hc : isDelim c = true) :
    ¬ List.isPrefixOf tag (c :: rest) = true := by
  cases tag with
  | nil => exact absurd rfl htag
  | cons h0 t0 =>
    simp only [headNotDelim, Bool.not_eq_true'] at hh
    intro hpre
    rw [List.isPrefixOf_iff_prefix] at hpre
    rcases List.cons_prefix_cons.mp hpre with ⟨heq, -⟩
    rw [heq] at hh
    rw [hh] at hc
    simp at hc
/-- Soundness of one scanner match: the occurrence it reports is an
exact standalone occurrence in the sense of the specification. -/
theorem matchAt_occurrence {tag text : List Char} {p len : Nat}
    (htag : tag ≠ []) (hh : headNotDelim tag = true)
    (h : matchAt tag text p = some len) :
    specStandalone text tag
      (p + (jsIndexOf ((text.drop p).take len) tag).toNat) = true := by
  rcases matchAt_some h with hcase | hcase
  · obtain ⟨hp0, hpre, t, htrail, hlen⟩ := matchHat_some hcase
    subst hp0
    have hpre2 : List.isPrefixOf tag (((text : List Char).drop 0).take len) = true := by
      rw [List.drop_zero]
      exact isPrefixOf_take hpre (by omega)
    have hidx : jsIndexOf ((text.drop 0).take len) tag = 0 :=
      jsIndexOf_of_prefix hpre2
    rw [hidx]
    simp only [Int.toNat_zero, Nat.add_zero, Nat.zero_add]
    simp only [specStandalone, List.drop_zero]
    rcases trailMatch_some htrail with hend | ⟨c, hgc, hwc⟩
    · simp [hpre, hend]
    · simp [hpre, hgc, hwc]
  · obtain ⟨c, hgc, hdc, hpre, t, htrail, hlen⟩ := matchDelim_some hcase
    have hplen : p < text.length := by
      rcases List.getElem?_eq_some_iff.mp hgc with ⟨hlt, -⟩
      exact hlt
    have hdropp : text.drop p = c :: text.drop (p + 1) := by
      have := List.drop_eq_getElem_cons hplen
      rw [this]
      rcases List.getElem?_eq_some_iff.mp hgc with ⟨hlt, hgv⟩
      rw [hgv]
    have hfull : (text.drop p).take len =
        c :: ((text.drop (p + 1)).take (tag.length + t)) := by
      rw [hdropp]
      have : len = (tag.length + t) + 1 := by omega
      rw [this, List.take_succ_cons]
    have hpre2 : List.isPrefixOf tag
        ((text.drop (p + 1)).take (tag.length + t)) = true :=
      isPrefixOf_take hpre (by omega)
    have hnot : ¬ List.isPrefixOf tag
        (c :: ((text.drop (p + 1)).take (tag.length + t))) = true :=
      not_prefix_of_delim_head htag hh hdc
    have hidx : jsIndexOf ((text.drop p).take len) tag = 1 := by
      rw [hfull]
      exact jsIndexOf_cons_one hnot hpre2
    rw [hidx]
    have hs : p + (1 : Int).toNat = p + 1 := rfl
    rw [hs]
    simp only [specStandalone]
    have hlead : text[p + 1 - 1]? = some c := by
      simpa using hgc
    have hw := isDelim_isWhitespace hdc
    rcases trailMatch_some htrail with hend | ⟨d, hgd, hwd⟩
    · simp [hpre, hgc, hw, hend]
    · simp [hpre, hgc, hw, hgd, hwd]

theorem findMatchFrom_some {tag text : List Char} :
    ∀ {fuel p q len : Nat}, findMatchFrom tag text fuel p = some (q, len) →
      matchAt tag text q = some len := by
  intro fuel
  induction fuel with
  | zero => intro p q len h; simp [findMatchFrom] at h
  | succ f ih =>
    intro p q len h
    simp only [findMatchFrom] at h
    cases hm : matchAt tag text p with
    | some l =>
      rw [hm] at h
      simp only [Option.some.injEq, Prod.mk.injEq] at h
      obtain ⟨rfl, rfl⟩ := h
      exact hm
    | none =>
      rw [hm] at h
      exact ih h

theorem scanTagAux_sound {tag text : List Char}
    (htag : tag ≠ []) (hh : headNotDelim tag = true) :
    ∀ {fuel p : Nat}, ∀ se ∈ scanTagAux tag text p fuel,
      specStandalone text tag se.1 = true ∧ se.2 = se.1 + tag.length := by
  intro fuel
  induction fuel with
  | zero => intro p se h; simp [scanTagAux] at h
  | succ f ih =>
    intro p se h
    simp only [scanTagAux] at h
    cases hm : findMatchFrom tag text (text.length + 1 - p) p with
    | none => rw [hm] at h; simp at h
    | some ql =>
      obtain ⟨q, len⟩ := ql
      rw [hm] at h
      simp only [List.mem_cons] at h
      rcases h with h | h
      · subst h
        exact ⟨matchAt_occurrence htag hh (findMatchFrom_some hm), rfl⟩
      · exact ih se h

/-- escapeRegExpAux touches nothing in a backslash-free list: its
pattern can only fire on a metacharacter immediately followed by a
backslash and a bracket. -/
theorem escapeRegExpAux_of_no_backslash :
    ∀ (l : List Char), ¬ '\\' ∈ l → escapeRegExpAux l = l := by
  intro l
  induction l with
  | nil => intro h; exact escapeRegExpAux.eq_1
  | cons c rest ih =>
    intro h
    have hcr : ¬ '\\' ∈ rest := fun hm => h (List.mem_cons_of_mem c hm)
    have hnot : ∀ (rest2 : List Char), rest = '\\' :: ']' :: rest2 → False := by
      intro rest2 hr
      exact hcr (by rw [hr]; simp)
    rw [escapeRegExpAux.eq_3 c rest hnot, ih hcr]

/-- On a regex-literal tag the source's escapeRegExp is the identity,
so the compiled pattern for such a tag is the literal boundary pattern
the scanner model implements. -/
theorem escapeRegExp_eq_self_of_literal (tag : String)
    (h : regexLiteralTag tag.data = true) : escapeRegExp tag = tag := by
  have hb : ¬ '\\' ∈ tag.data := by
    intro hm
    have hc := List.all_eq_true.mp h '\\' hm
    simp [escClass] at hc
  unfold escapeRegExp
  rw [escapeRegExpAux_of_no_backslash tag.data hb]

/-- The broken escapeRegExp leaves the metacharacter of a tag such as
"a+" in place, so that tag reaches the regex engine as the live pattern
a+ — the reason the scanner model, and the soundness statement below,
are restricted to regex-literal tags. -/
theorem escapeRegExp_does_not_escape_plus : escapeRegExp "a+" = "a+" := by
  have h := escapeRegExpAux_of_no_backslash "a+".data (by decide)
  unfold escapeRegExp
  rw [h]

/-- C4 counterexample: in the document "bar bar" the scanner reports
only the first standalone occurrence of "bar".  The match of the first
occurrence consumes the separating space as its trailing delimiter, so
the second occurrence — standalone by the claim's own boundary
criterion, as the second conjunct certifies — has no leading delimiter
left and is missed: the scanner does not compute all standalone
occurrences. -/
theorem c4_counterexample :
    computeOccurrences "bar bar" ["bar"] = [("bar", 0, 3)] ∧
    specStandalone "bar bar".data "bar".data 4 = true := by
  decide

/-- C4 (amended): for tags whose characters are regex-literal and
whose head is not a delimiter — on those tags the constructed regex
matches the tag text literally, escapeRegExp being the identity there —
the scanner is sound: every reported occurrence (tag, s, e) is an exact
standalone occurrence at s with e = s + length tag, never inside a
longer token; and on the spec's example it is also complete: scanning
"foo bar foobar bar" for "bar" yields exactly the two standalone
occurrences.  In general occurrences separated by a single whitespace
character are missed (see the counterexample), so the scanner computes
a subset of the standalone occurrences, not exactly their set; and a
tag containing a regex metacharacter reaches the engine unescaped
(escapeRegExp_does_not_escape_plus) and is outside this statement. -/
theorem c4_scanner_sound_and_example :
    (∀ (docText : String) (tags : List String),
      (∀ tg ∈ tags, headNotDelim tg.data = true ∧
        regexLiteralTag tg.data = true) →
      ∀ occ ∈ computeOccurrences docText tags,
        specStandalone docText.data occ.1.data occ.2.1 = true ∧
        occ.2.2 = occ.2.1 + occ.1.data.length) ∧
    computeOccurrences "foo bar foobar bar" ["bar"] =
      [("bar", 4, 7), ("bar", 15, 18)] := by
  constructor
  · intro docText tags hts occ hocc
    simp only [computeOccurrences, List.mem_flatMap] at hocc
    obtain ⟨tag, htagmem, hocc⟩ := hocc
    by_cases he : tag = ""
    · rw [if_pos he] at hocc
      simp at hocc
    · rw [if_neg he] at hocc
      simp only [List.mem_map] at hocc
      obtain ⟨se, hse, hocc⟩ := hocc
      have hne : tag.data ≠ [] := by
        intro hd
        apply he
        cases tag
        simp only at hd
        simp [hd]
      simp only [scanTag] at hse
      have hsound := scanTagAux_sound hne (hts tag htagmem).1 se hse
      subst hocc
      exact ⟨hsound.1, hsound.2⟩
  · decide

/-- Witness for the amended C4 at a concrete input: the occurrence the
scanner reports in "x bar y" is certified standalone with the right end
offset. -/
theorem c4_scanner_sound_and_example_witness :
    specStandalone "x bar y".data "bar".data 2 = true ∧
    (5 : Nat) = 2 + "bar".data.length :=
  c4_scanner_sound_and_example.1 "x bar y" ["bar"]
    (by intro tg htg; simp at htg; subst htg; exact ⟨by decide, by decide⟩)
    ("bar", 2, 5) (by decide)

/-! ## C1 and C5 — serialization and fault isolation of the gateway
queue -/

/-- From an idle configuration the only enabled step is the start of
the next invocation in submission order. -/
theorem step_from_idle {n : Nat} {res : Nat → Except String String}
    {k : Nat} {e : GEvent} {c2 : GConf}
    (h : GStep n res (idleConf k) e c2) :
    k < n ∧ e = GEvent.start k ∧ c2 = runningConf k := by
  cases h with
  | start i hn hs hprev =>
    have h1 : ¬ i < k := fun hl => hs (Finset.mem_range.mpr hl)
    have hik : i = k := by
      rcases hprev with h0 | hp
      · omega
      · have := Finset.mem_range.mp hp
        omega
    subst hik
    refine ⟨hn, rfl, ?_⟩
    simp only [runningConf, idleConf, GConf.mk.injEq]
    exact ⟨Finset.range_succ.symm, trivial⟩
  | settle i hs hns => exact absurd hs hns

/-- From a running configuration the only enabled step is the settle of
the running invocation, with its own outcome. -/
theorem step_from_running {n : Nat} {res : Nat → Except String String}
    {k : Nat} {e : GEvent} {c2 : GConf}
    (h : GStep n res (runningConf k) e c2) :
    e = GEvent.settle k (res k) ∧ c2 = idleConf (k + 1) := by
  cases h with
  | start i hn hs hprev =>
    exfalso
    have h1 : ¬ i < k + 1 := fun hl => hs (Finset.mem_range.mpr hl)
    rcases hprev with h0 | hp
    · omega
    · have := Finset.mem_range.mp hp
      omega
  | settle i hs hns =>
    have hik : i = k := by
      have h1 := Finset.mem_range.mp hs
      have h2 : ¬ i < k := fun hl => hns (Finset.mem_range.mpr hl)
      omega
    subst hik
    refine ⟨rfl, ?_⟩
    simp only [runningConf, idleConf, GConf.mk.injEq]
    exact ⟨trivial, Finset.range_succ.symm⟩

theorem canonFrom_of_ge {res : Nat → Except String String} {k n : Nat}
    (h : n ≤ k) : canonFrom res k n = [] := by
  rw [canonFrom, if_neg (by omega)]

theorem canonFrom_of_lt {res : Nat → Except String String} {k n : Nat}
    (h : k < n) : canonFrom res k n =
      GEvent.start k :: GEvent.settle k (res k) :: canonFrom res (k + 1) n := by
  rw [canonFrom, if_pos h]

/-- Every complete trace of the gateway scheduler is the serialized
FIFO trace: from an idle (resp. running) configuration the remaining
events are uniquely determined. -/
theorem gtrace_final_canonical {n : Nat} {res : Nat → Except String String}
    {c : GConf} {tr : List GEvent} {c2 : GConf}
    (htr : GTrace n res c tr c2) :
    gFinal n res c2 →
      (∀ k, c = idleConf k → tr = canonFrom res k n) ∧
      (∀ k, c = runningConf k →
        tr = GEvent.settle k (res k) :: canonFrom res (k + 1) n) := by
  induction htr with
  | nil c =>
    intro hfin
    constructor
    · intro k hk
      subst hk
      by_cases hkn : k < n
      · exfalso
        refine hfin (GEvent.start k) _
          (GStep.start (idleConf k) k hkn ?_ ?_)
        · exact fun hm => absurd (Finset.mem_range.mp hm) (by omega)
        · by_cases h0 : k = 0
          · exact Or.inl h0
          · exact Or.inr (Finset.mem_range.mpr (by omega))
      · exact (canonFrom_of_ge (by omega)).symm
    · intro k hk
      subst hk
      exfalso
      refine hfin (GEvent.settle k (res k)) _
        (GStep.settle (runningConf k) k ?_ ?_)
      · exact Finset.mem_range.mpr (by omega)
      · exact fun hm => absurd (Finset.mem_range.mp hm) (by omega)
  | cons c c1 c2 e tr hstep htr ih =>
    intro hfin
    have ihh := ih hfin
    constructor
    · intro k hk
      subst hk
      obtain ⟨hkn, he, hc1⟩ := step_from_idle hstep
      subst he
      rw [canonFrom_of_lt hkn, ihh.2 k hc1]
    · intro k hk
      subst hk
      obtain ⟨he, hc1⟩ := step_from_running hstep
      subst he
      rw [ihh.1 (k + 1) hc1]

/-- A complete run from the initial state produces exactly the
serialized FIFO trace. -/
theorem gtrace_complete_eq_canonical {n : Nat}
    {res : Nat → Except String String} {tr : List GEvent} {c2 : GConf}
    (htr : GTrace n res gInit tr c2) (hfin : gFinal n res c2) :
    tr = canonFrom res 0 n :=
  (gtrace_final_canonical htr hfin).1 0 (by
    simp only [gInit, idleConf, GConf.mk.injEq]
    exact ⟨Finset.range_zero.symm, Finset.range_zero.symm⟩)

/-- Positions of the events of invocation i inside the serialized
trace. -/
theorem canonFrom_get (res : Nat → Except String String) :
    ∀ (d k n i : Nat), i - k = d → k ≤ i → i < n →
      (canonFrom res k n)[2 * (i - k)]? = some (GEvent.start i) ∧
      (canonFrom res k n)[2 * (i - k) + 1]? =
        some (GEvent.settle i (res i)) := by
  intro d
  induction d with
  | zero =>
    intro k n i hd hki hin
    have hik : i = k := by omega
    subst hik
    rw [canonFrom_of_lt (by omega)]
    rw [show i - i = 0 from by omega]
    simp
  | succ d ih =>
    intro k n i hd hki hin
    have hkn : k < n := by omega
    rw [canonFrom_of_lt hkn]
    rw [show 2 * (i - k) = 2 * (i - (k + 1)) + 1 + 1 from by omega]
    rw [List.getElem?_cons_succ, List.getElem?_cons_succ]
    have := ih (k + 1) n i (by omega) (by omega) hin
    rw [show 2 * (i - (k + 1)) + 1 + 1 + 1 = 2 * (i - (k + 1)) + 1 + 1 + 1 from rfl]
    constructor
    · exact this.1
    · rw [show 2 * (i - (k + 1)) + 1 + 1 + 1 = (2 * (i - (k + 1)) + 1) + 1 + 1 from by omega]
      rw [List.getElem?_cons_succ, List.getElem?_cons_succ]
      exact this.2

/-- C1: in every complete run of the command gateway for n submitted
invocations, the trace is exactly the serialized FIFO trace, and for
any two invocations submitted as i before j, invocation i settles (at
trace position 2i+1) strictly before invocation j spawns its subprocess
(at position 2j) — so a later submission never starts until the earlier
call has settled, completions observe submission order, and at most one
invocation executes at any instant. -/
theorem c1_gateway_fifo_serialized (n : Nat)
    (res : Nat → Except String String) (tr : List GEvent) (c : GConf)
    (htr : GTrace n res gInit tr c) (hfin : gFinal n res c)
    (i j : Nat) (hij : i < j) (hj : j < n) :
    tr = canonFrom res 0 n ∧
    tr[2 * i]? = some (GEvent.start i) ∧
    tr[2 * i + 1]? = some (GEvent.settle i (res i)) ∧
    tr[2 * j]? = some (GEvent.start j) ∧
    2 * i + 1 < 2 * j := by
  have hc := gtrace_complete_eq_canonical htr hfin
  subst hc
  have hi := canonFrom_get res (i - 0) 0 n i rfl (by omega) (by omega)
  have hj2 := canonFrom_get res (j - 0) 0 n j rfl (by omega) hj
  rw [show i - 0 = i from by omega] at hi
  rw [show j - 0 = j from by omega] at hj2
  exact ⟨rfl, hi.1, hi.2, hj2.1, by omega⟩

/-- C5: an earlier failure does not prevent a later invocation from
executing, and the later invocation's events are the same as in a run
in which the earlier invocation succeeded: in any two complete runs
whose backends agree on invocation j alone, invocation j starts and
settles at the same trace positions with the same outcome. -/
theorem c5_gateway_failure_isolation (n : Nat)
    (res res2 : Nat → Except String String)
    (tr tr2 : List GEvent) (c c2 : GConf)
    (htr : GTrace n res gInit tr c) (hfin : gFinal n res c)
    (htr2 : GTrace n res2 gInit tr2 c2) (hfin2 : gFinal n res2 c2)
    (j : Nat) (hj : j < n) (hagree : res j = res2 j) :
    tr[2 * j]? = some (GEvent.start j) ∧
    tr[2 * j + 1]? = some (GEvent.settle j (res j)) ∧
    tr2[2 * j]? = tr[2 * j]? ∧
    tr2[2 * j + 1]? = tr[2 * j + 1]? := by
  have hc := gtrace_complete_eq_canonical htr hfin
  have hc2 := gtrace_complete_eq_canonical htr2 hfin2
  subst hc hc2
  have h1 := canonFrom_get res (j - 0) 0 n j rfl (by omega) hj
  have h2 := canonFrom_get res2 (j - 0) 0 n j rfl (by omega) hj
  rw [show j - 0 = j from by omega] at h1 h2
  refine ⟨h1.1, h1.2, ?_, ?_⟩
  · rw [h1.1, h2.1]
  · rw [h1.2, h2.2, hagree]

/-- A complete two-invocation run of the scheduler, used by the
witnesses. -/
theorem gtrace_two (res : Nat → Except String String) :
    GTrace 2 res gInit
      [GEvent.start 0, GEvent.settle 0 (res 0), GEvent.start 1,
       GEvent.settle 1 (res 1)]
      ⟨insert 1 (insert 0 ∅), insert 1 (insert 0 ∅)⟩ := by
  refine GTrace.cons _ _ _ _ _
    (GStep.start gInit 0 (by omega) (by decide) (Or.inl rfl)) ?_
  refine GTrace.cons _ _ _ _ _
    (GStep.settle _ 0 (by decide) (by decide)) ?_
  refine GTrace.cons _ _ _ _ _
    (GStep.start _ 1 (by omega) (by decide) (Or.inr (by decide))) ?_
  refine GTrace.cons _ _ _ _ _
    (GStep.settle _ 1 (by decide) (by decide)) ?_
  exact GTrace.nil _

/-- The end state of the two-invocation run admits no further step. -/
theorem gfinal_two (res : Nat → Except String String) :
    gFinal 2 res ⟨insert 1 (insert 0 ∅), insert 1 (insert 0 ∅)⟩ := by
  intro e c2 h
  cases h with
  | start i hn hs hprev =>
    apply hs
    have hi : i = 0 ∨ i = 1 := by omega
    rcases hi with rfl | rfl <;> decide
  | settle i hs hns => exact hns hs

/-- Witness for C1: the concrete two-invocation run in order 0 then 1,
with invocation 0 settling at position 1 before invocation 1 starts at
position 2. -/
theorem c1_gateway_fifo_serialized_witness :
    ([GEvent.start 0, GEvent.settle 0 (Except.ok "a"), GEvent.start 1,
      GEvent.settle 1 (Except.ok "b")] : List GEvent)[0]? =
        some (GEvent.start 0) ∧
    ([GEvent.start 0, GEvent.settle 0 (Except.ok "a"), GEvent.start 1,
      GEvent.settle 1 (Except.ok "b")] : List GEvent)[1]? =
        some (GEvent.settle 0 (Except.ok "a")) ∧
    ([GEvent.start 0, GEvent.settle 0 (Except.ok "a"), GEvent.start 1,
      GEvent.settle 1 (Except.ok "b")] : List GEvent)[2]? =
        some (GEvent.start 1) ∧
    2 * 0 + 1 < 2 * 1 := by
  have h := c1_gateway_fifo_serialized 2
    (fun i => if i = 0 then Except.ok "a" else Except.ok "b") _ _
    (gtrace_two _) (gfinal_two _) 0 1 (by omega) (by omega)
  exact ⟨h.2.1, h.2.2.1, h.2.2.2.1, h.2.2.2.2⟩

/-- Witness for C5: invocation 0 fails in the first run and succeeds in
the second; invocation 1 still runs at the same positions with the same
outcome in both. -/
theorem c5_gateway_failure_isolation_witness :
    ([GEvent.start 0, GEvent.settle 0 (Except.error "boom"),
      GEvent.start 1, GEvent.settle 1 (Except.ok "fine")] :
        List GEvent)[2 * 1]? = some (GEvent.start 1) ∧
    ([GEvent.start 0, GEvent.settle 0 (Except.error "boom"),
      GEvent.start 1, GEvent.settle 1 (Except.ok "fine")] :
        List GEvent)[2 * 1 + 1]? =
      some (GEvent.settle 1 (Except.ok "fine")) ∧
    ([GEvent.start 0, GEvent.settle 0 (Except.ok "ok"),
      GEvent.start 1, GEvent.settle 1 (Except.ok "fine")] :
        List GEvent)[2 * 1 + 1]? =
    ([GEvent.start 0, GEvent.settle 0 (Except.error "boom"),
      GEvent.start 1, GEvent.settle 1 (Except.ok "fine")] :
        List GEvent)[2 * 1 + 1]? := by
  have h := c5_gateway_failure_isolation 2
    (fun i => if i = 0 then Except.error "boom" else Except.ok "fine")
    (fun i => if i = 0 then Except.ok "ok" else Except.ok "fine") _ _ _ _
    (gtrace_two _) (gfinal_two _) (gtrace_two _) (gfinal_two _)
    1 (by omega) rfl
  exact ⟨h.1, h.2.1, h.2.2.2⟩

end HTFS


